import Mathlib

/-!
Verification of the `dupes` duplicate-file finder (src/dupes.go).

The program walks a directory tree, computes a fast primary digest (xxhash64)
of every regular file, and on a primary-digest collision lazily computes a
keyed secondary digest (HighwayHash with the hardcoded key HH_KEY) of both the
previously seen file and the new file; files sharing the composite key
(primary digest concatenated with secondary digest) are grouped in a hash map
`h2HM`, while `h1HM` maps each primary digest to the first path seen with it.

Embedding choices, all taken from the source:
* File contents are `String`s (byte sequences); the file system is a partial
  map `fs : String → Option String` from paths to contents (`none` models an
  unreadable file: `os.Open`/`ReadAll` failing in `getDualReaders` or
  `getSingleReader`).
* The two fingerprinters are parameters `hash1 : String → String` and
  `hhAlg : String → String → String` (key, then content).  Both digest
  algorithms are external libraries streaming a file's full bytes; the spec
  (§4.1, §4.2, §9) treats them as arbitrary deterministic digest functions, so
  the scan is parametrised over them.  `computeHighwayHash` fixes the key to
  the constant `HH_KEY`, exactly as the source does.  Hashing an in-memory
  `bytes.Reader` cannot fail, so the error returns of `computeXXHash` /
  `computeHighwayHash` (which only fire on reader errors) are dead paths and
  the model functions are total.
* The cornelk hash maps are association lists with `hmGet` / `hmSet`
  (`Set` replaces the value of an existing key in place).
* `filepath.Walk` is a left fold over a list of `WalkEntry` values
  (path, IsDir flag, and whether Walk itself reported an error for the entry);
  a non-nil error returned by the callback aborts the walk, modelled with
  `Except`.
* `ScanState.hhCalls` instruments the scan: it records, in order, the path
  whose bytes each `computeHighwayHash` invocation consumed (lines 176 and 184
  of dupes.go).  `ScanState.reports` records the paths for which an
  "Error opening file" message was printed (lines 158 and 172; note line 172
  prints the current path even though the previously seen file failed to
  open — the model records what is printed).  Neither field feeds back into
  the algorithm.
-/

/-- Key used as seed for the HighwayHash algorithm, hardcoded in dupes.go so
that hashes are consistent across runs. -/
def HH_KEY : String := "E9ECA1531393D174DFEA70CC5BAA4FCE5FC599D08ECB36B9961489985A64D3AE"

/-- One entry handed to the `filepath.Walk` callback: the path, whether the
entry is a directory, and whether Walk passed a non-nil error for it. -/
structure WalkEntry where
  path : String
  isDir : Bool
  walkErr : Bool
deriving DecidableEq, Repr

/-- The mutable state threaded through the scan: the primary index `h1HM`
(primary digest → first-seen path), the duplicate-group map `h2HM`
(composite key → group of paths), the two counters, and two instrumentation
logs (`hhCalls`: one path per secondary-hash invocation; `reports`: one path
per "Error opening file" print). -/
structure ScanState where
  h1HM : List (String × String)
  h2HM : List (String × List String)
  dupeCount : Nat
  fileCount : Nat
  hhCalls : List String
  reports : List String
deriving DecidableEq, Repr

/-- Lookup in the model of a cornelk hash map (`GetStringKey`). -/
def hmGet {α : Type} (hm : List (String × α)) (k : String) : Option α :=
  match hm with
  | [] => none
  | (k', v) :: rest => if k' = k then some v else hmGet rest k

/-- Insert-or-replace in the model of a cornelk hash map (`Set`): an existing
key keeps its position and gets the new value; a new key is appended. -/
def hmSet {α : Type} (hm : List (String × α)) (k : String) (v : α) : List (String × α) :=
  match hm with
  | [] => [(k, v)]
  | (k', v') :: rest => if k' = k then (k, v) :: rest else (k', v') :: hmSet rest k v

/-- dupes.go `addDupesToHashMap`: store a fresh singleton slice `[path]` under
`key`, replacing whatever group was there. -/
def addDupesToHashMap (key : String) (path : String) (hm : List (String × List String)) :
    List (String × List String) :=
  hmSet hm key [path]

/-- dupes.go `computeHighwayHash`: the HighwayHash of a content, always keyed
with the constant `HH_KEY` (the `hex.DecodeString` of the valid constant and
`highwayhash.New` on a 32-byte key never fail). -/
def computeHighwayHash (hhAlg : String → String → String) (content : String) : String :=
  hhAlg HH_KEY content

/-- dupes.go `processFile`: the `filepath.Walk` callback body.  Returns
`.error ()` exactly when the Go function returns a non-nil error (which aborts
the walk); `.ok` carries the updated state.  The progress print guarded by the
five-second timer is pure console output and is not modelled beyond the
`fileCount` increment. -/
def processFile (hash1 : String → String) (hhAlg : String → String → String)
    (fs : String → Option String) (e : WalkEntry) (st : ScanState) : Except Unit ScanState :=
  let st := { st with fileCount := st.fileCount + 1 }
  if e.walkErr then .error ()
  else if e.isDir then .ok st
  else
    match fs e.path with
    | none => .ok { st with reports := st.reports ++ [e.path] }
    | some content =>
      let hash1String := hash1 content
      match hmGet st.h1HM hash1String with
      | some prevPath =>
        match fs prevPath with
        | none => .ok { st with reports := st.reports ++ [e.path] }
        | some prevContent =>
          let hash2StringPrevFile := computeHighwayHash hhAlg prevContent
          let st := { st with
            hhCalls := st.hhCalls ++ [prevPath],
            h2HM := addDupesToHashMap (hash1String ++ hash2StringPrevFile) prevPath st.h2HM }
          let hash2String := computeHighwayHash hhAlg content
          let st := { st with hhCalls := st.hhCalls ++ [e.path] }
          match hmGet st.h2HM (hash1String ++ hash2String) with
          | some dupes =>
            .ok { st with
              dupeCount := st.dupeCount + 1,
              h2HM := hmSet st.h2HM (hash1String ++ hash2String) (dupes ++ [e.path]) }
          | none =>
            .ok { st with h2HM := addDupesToHashMap (hash1String ++ hash2String) e.path st.h2HM }
      | none => .ok { st with h1HM := hmSet st.h1HM hash1String e.path }

/-- dupes.go `filepath.Walk`: fold `processFile` over the traversal order;
an error returned by the callback stops the walk and is returned. -/
def walkFiles (hash1 : String → String) (hhAlg : String → String → String)
    (fs : String → Option String) : List WalkEntry → ScanState → Except Unit ScanState
  | [], st => .ok st
  | e :: rest, st =>
    match processFile hash1 hhAlg fs e st with
    | .error err => .error err
    | .ok st' => walkFiles hash1 hhAlg fs rest st'

/-- The empty state both maps start a scan with (dupes.go lines 243-247). -/
def initState : ScanState :=
  { h1HM := [], h2HM := [], dupeCount := 0, fileCount := 0, hhCalls := [], reports := [] }

/-- Whole scan from the empty state. -/
def runScan (hash1 : String → String) (hhAlg : String → String → String)
    (fs : String → Option String) (entries : List WalkEntry) : Except Unit ScanState :=
  walkFiles hash1 hhAlg fs entries initState

/-- The final duplicate-group map of a completed scan (`none` if the walk
aborted). -/
def scanGroups (hash1 : String → String) (hhAlg : String → String → String)
    (fs : String → Option String) (entries : List WalkEntry) :
    Option (List (String × List String)) :=
  match runScan hash1 hhAlg fs entries with
  | .ok st => some st.h2HM
  | .error _ => none

/-- The secondary-hash invocation log of a completed scan. -/
def scanHHCalls (hash1 : String → String) (hhAlg : String → String → String)
    (fs : String → Option String) (entries : List WalkEntry) : List String :=
  match runScan hash1 hhAlg fs entries with
  | .ok st => st.hhCalls
  | .error _ => []

/-- The primary digest the scan would compute for a path: `none` when the file
is unreadable (an unreadable file is never hashed). -/
def primaryDigest (hash1 : String → String) (fs : String → Option String)
    (p : String) : Option String :=
  (fs p).map hash1

/-- The composite key the scan would compute for a content. -/
def compositeOf (hash1 : String → String) (hhAlg : String → String → String)
    (content : String) : String :=
  hash1 content ++ computeHighwayHash hhAlg content

/-! ## Reporter (printDupes) and main -/

/-- One element of the JSON report: the Go struct `dupe` with its `hash` and
`files` fields. -/
structure Dupe where
  hash : String
  files : List String
deriving DecidableEq, Repr

/-- One hex digit, lowercase, as produced by Go's `%x` verb. -/
def hexDigit (n : Nat) : Char :=
  if n < 10 then Char.ofNat (48 + n) else Char.ofNat (87 + n)

/-- Go's `%x` applied to a string: the bytes of the string rendered as
lowercase hex.  The keys it is applied to in dupes.go are themselves
hex-digit strings (output of `hex.EncodeToString`), hence pure ASCII, so one
character is one byte. -/
def hexEncode (s : String) : String :=
  String.mk (s.data.map (fun c => [hexDigit (c.toNat / 16 % 16), hexDigit (c.toNat % 16)])).flatten

/-- The groups `printDupes` reports: the entries of `h2HM`, in iteration
order, whose group has more than one member (dupes.go line 42). -/
def printedGroups (hm : List (String × List String)) : List (String × List String) :=
  hm.filter (fun e => decide (1 < e.2.length))

/-- The console output of `printDupes`: for each reported group, the key as
rendered by `Printf \x7b"Hash: %x"\x7d` (hex of the key's bytes) together with the
listed paths, in print order. -/
def consoleRender (hm : List (String × List String)) : List (String × List String) :=
  (printedGroups hm).map (fun e => (hexEncode e.1, e.2))

/-- The `json_dupes` slice `printDupes` accumulates: one `dupe` per reported
group, in the same single iteration that prints the console report. -/
def jsonDupes (hm : List (String × List String)) : List Dupe :=
  (printedGroups hm).map (fun e => { hash := e.1, files := e.2 })

/-- JSON values, as far as the report needs them. -/
inductive Json where
  | str : String → Json
  | arr : List Json → Json
  | obj : List (String × Json) → Json

/-- `json.Marshal` of one `dupe` value: an object with the `hash` and `files`
fields (the struct tags in dupes.go lines 25-26). -/
def marshalDupe (d : Dupe) : Json :=
  .obj [("hash", .str d.hash), ("files", .arr (d.files.map .str))]

/-- `json.Marshal` of the `json_dupes` slice: a JSON array of objects.
Marshalling strings and slices of structs of strings never fails in Go, so
the error return of `json.Marshal` is a dead path here. -/
def marshalDupes (ds : List Dupe) : Json :=
  .arr (ds.map marshalDupe)

/-- Read one JSON string back. -/
def jsonToString (j : Json) : Option String :=
  match j with
  | .str s => some s
  | _ => none

/-- Read a JSON array of strings back, element by element. -/
def jsonStrings : List Json → Option (List String)
  | [] => some []
  | j :: rest =>
    match jsonToString j, jsonStrings rest with
    | some s, some ss => some (s :: ss)
    | _, _ => none

/-- `json.Unmarshal` of one element of the report back into a `dupe`. -/
def unmarshalDupe (j : Json) : Option Dupe :=
  match j with
  | .obj [("hash", .str h), ("files", .arr fsj)] =>
    match jsonStrings fsj with
    | some fls => some { hash := h, files := fls }
    | none => none
  | _ => none

/-- Read the elements of the report array back, element by element. -/
def dupList : List Json → Option (List Dupe)
  | [] => some []
  | j :: rest =>
    match unmarshalDupe j, dupList rest with
    | some d, some ds => some (d :: ds)
    | _, _ => none

/-- `json.Unmarshal` of the whole report back into a slice of `dupe`s. -/
def unmarshalDupes (j : Json) : Option (List Dupe) :=
  match j with
  | .arr items => dupList items
  | _ => none

/-- Everything observable about one invocation of the program after argument
parsing: the exit status, the console duplicate report, the JSON document
written (if any), and whether the JSON-output error message was printed. -/
structure MainResult where
  exitCode : Nat
  console : List (String × List String)
  jsonWritten : Option (List Dupe)
  outputErrorReported : Bool
deriving DecidableEq, Repr

/-- dupes.go `main` from the walk onward (lines 243-263): walk the tree, exit
with code 3 if the walk returned an error; otherwise, when `dupeCount > 0`,
run `printDupes` — whose error result `main` discards (`_ = printDupes(...)`
on line 259), so the process exit code is 0 even when writing the JSON file
fails.  `writeOk` models whether `ioutil.WriteFile` succeeds. -/
def mainRun (hash1 : String → String) (hhAlg : String → String → String)
    (fs : String → Option String) (entries : List WalkEntry)
    (json_output : Bool) (writeOk : Bool) : MainResult :=
  match runScan hash1 hhAlg fs entries with
  | .error _ => { exitCode := 3, console := [], jsonWritten := none, outputErrorReported := false }
  | .ok st =>
    if st.dupeCount > 0 then
      let console := consoleRender st.h2HM
      if json_output then
        if writeOk then
          { exitCode := 0, console := console, jsonWritten := some (jsonDupes st.h2HM),
            outputErrorReported := false }
        else
          { exitCode := 0, console := console, jsonWritten := none,
            outputErrorReported := true }
      else
        { exitCode := 0, console := console, jsonWritten := none, outputErrorReported := false }
    else
      { exitCode := 0, console := [], jsonWritten := none, outputErrorReported := false }

/-! ## Argument parsing (dupes.go main, lines 204-241) -/

/-- How argument parsing can fail: `usage` models the explicit
`printUsage(); os.Exit(1)` paths; `panicked` models the runtime panic of
`args[i][0]` when an argument is the empty string. -/
inductive ArgError where
  | usage : ArgError
  | panicked : ArgError
deriving DecidableEq, Repr

/-- The configuration `main` accumulates while looping over the arguments. -/
structure Config where
  json_output : Bool
  json_file : String
  dupeDir : String
deriving DecidableEq, Repr

/-- The `for i := 0; i < len(args); i++` loop of dupes.go `main`: a leading
`-` selects flag handling (`-j`/`--json` consumes the next argument as the
JSON file path, anything else prints usage and exits 1); any other argument
overwrites `dupeDir`.  Indexing `args[i][0]` panics on an empty argument. -/
def parseLoop : List String → Config → Except ArgError Config
  | [], cfg => .ok cfg
  | a :: rest, cfg =>
    if a = "" then .error .panicked
    else if a.take 1 = "-" then
      if a.drop 1 = "j" ∨ a.drop 1 = "-json" then
        match rest with
        | [] => .error .usage
        | jf :: rest2 =>
          parseLoop rest2 { cfg with json_output := true, json_file := jf }
      else .error .usage
    else parseLoop rest { cfg with dupeDir := a }

/-- dupes.go `main` argument handling: no arguments, or an empty `dupeDir`
after the loop, prints usage and exits 1. -/
def parseArgs (args : List String) : Except ArgError Config :=
  if args.length < 1 then .error .usage
  else
    match parseLoop args { json_output := false, json_file := "", dupeDir := "" } with
    | .error e => .error e
    | .ok cfg => if cfg.dupeDir = "" then .error .usage else .ok cfg

/-- The positional (non-flag) arguments of a command line, in order: an
argument is positional when it does not start with `-`; the value consumed by
a `-j`/`--json` flag is not positional. -/
def posArgs : List String → List String
  | [] => []
  | a :: rest =>
    if a.take 1 = "-" then
      if a.drop 1 = "j" ∨ a.drop 1 = "-json" then
        match rest with
        | [] => []
        | _ :: rest2 => posArgs rest2
      else posArgs rest
    else a :: posArgs rest

/-- A command line the parser accepts without a usage error or a panic:
every argument is non-empty and every flag is `-j`/`--json` followed by a
value. -/
def wellFormedArgs : List String → Bool
  | [] => true
  | a :: rest =>
    if a = "" then false
    else if a.take 1 = "-" then
      if a.drop 1 = "j" ∨ a.drop 1 = "-json" then
        match rest with
        | [] => false
        | _ :: rest2 => wellFormedArgs rest2
      else false
    else wellFormedArgs rest

/-! ## Concrete instances used by witnesses and counterexamples

The fingerprinters below instantiate the abstract digest parameters for
concrete runs.  They are deterministic digest functions as required by the
spec's contract (§4.1, §4.2, §9: the specific algorithms are an
implementation choice); `constP` exhibits a primary-digest collision, which
the spec declares possible ("collisions across distinct content are expected
to be rare but non-negligible"). -/

/-- A primary digest for concrete runs: the identity on contents. -/
def idHash : String → String := fun c => c

/-- A keyed secondary digest for concrete runs: returns the content,
ignoring the key. -/
def idKeyed : String → String → String := fun _ c => c

/-- A primary digest with collisions: every content digests to `"P"`. -/
def constP : String → String := fun _ => "P"

/-- A fixed-width primary digest for concrete runs (every digest has length
one, like xxhash64's fixed 16 hex characters): the first character of the
content. -/
def oneHash : String → String := fun c => String.mk [c.data.headD 'z']

/-- A regular-file walk entry (no directory, no Walk error). -/
def entFile (p : String) : WalkEntry := { path := p, isDir := false, walkErr := false }

/-- A file system where paths a, b, c, d all hold the same bytes. -/
def fsSameX : String → Option String := fun p =>
  if p = "a" ∨ p = "b" ∨ p = "c" ∨ p = "d" then some "x" else none

/-- A file system with two distinct contents. -/
def fsXY : String → Option String := fun p =>
  if p = "a" then some "x" else if p = "b" then some "y" else none

/-- The same contents as `fsSameX`, written differently (a second run over an
unmodified directory). -/
def fsSameX2 : String → Option String := fun p =>
  if p = "a" ∨ p = "b" ∨ p = "c" ∨ p = "d" then some ("" ++ "x") else none

/-- Two-file traversal. -/
def entsAB : List WalkEntry := [entFile "a", entFile "b"]

/-- Three-file traversal. -/
def entsABC : List WalkEntry := [entFile "a", entFile "b", entFile "c"]

/-- Four-file traversal. -/
def entsABCD : List WalkEntry := [entFile "a", entFile "b", entFile "c", entFile "d"]

/-- The final state of scanning `fsXY` over `entsAB` with `idHash`/`idKeyed`:
two distinct contents with distinct primary digests, so no collision ever
occurs and the secondary hasher is never invoked. -/
def stAB_XY : ScanState :=
  { h1HM := [("x", "a"), ("y", "b")], h2HM := [], dupeCount := 0, fileCount := 2,
    hhCalls := [], reports := [] }

/-- The final state of scanning `fsSameX` over `entsAB`: one confirmed
duplicate pair. -/
def stAB_X : ScanState :=
  { h1HM := [("x", "a")], h2HM := [("xx", ["a", "b"])], dupeCount := 1, fileCount := 2,
    hhCalls := ["a", "b"], reports := [] }

/-- The final state of scanning `fsXY` over only `[entFile "a"]`: a single
file, no duplicates. -/
def stA_XY : ScanState :=
  { h1HM := [("x", "a")], h2HM := [], dupeCount := 0, fileCount := 1,
    hhCalls := [], reports := [] }

/-! ## The scan invariant

`ScanInv hash1 hhAlg fs seen st` relates a mid-scan state to the list `seen`
of regular-file paths processed so far.  It is established by induction over
the walk and yields the per-claim invariants: every `h1HM` value is a
previously seen readable path whose primary digest is its key; every group
member under a composite key is a previously seen readable path whose
composite digest equals that key, and groups have no repeated paths; and the
secondary hasher is only ever invoked on a readable seen file that shares its
primary digest with a different seen readable file. -/
structure ScanInv (hash1 : String → String) (hhAlg : String → String → String)
    (fs : String → Option String) (seen : List String) (st : ScanState) : Prop where
  h1_mem : ∀ k q, hmGet st.h1HM k = some q →
    q ∈ seen ∧ ∃ cq, fs q = some cq ∧ hash1 cq = k
  h2_mem : ∀ k g, hmGet st.h2HM k = some g →
    g.Nodup ∧ ∀ p ∈ g, p ∈ seen ∧ ∃ cp, fs p = some cp ∧ compositeOf hash1 hhAlg cp = k
  hh_mem : ∀ p ∈ st.hhCalls, p ∈ seen ∧ ∃ cp, fs p = some cp ∧
    ∃ q cq, q ∈ seen ∧ q ≠ p ∧ fs q = some cq ∧ hash1 cq = hash1 cp

/-! ## Lemmas about the embedded operations -/

lemma hmGet_hmSet {α : Type} (hm : List (String × α)) (k k' : String) (v : α) :
    hmGet (hmSet hm k v) k' = if k = k' then some v else hmGet hm k' := by
  induction hm with
  | nil => simp [hmGet, hmSet]
  | cons hd tl ih =>
    obtain ⟨kh, vh⟩ := hd
    by_cases h1 : kh = k
    · subst h1
      by_cases h2 : kh = k'
      · subst h2; simp [hmGet, hmSet]
      · simp [hmGet, hmSet, h2]
    · by_cases h2 : kh = k'
      · subst h2
        have hkk : ¬ k = kh := fun h => h1 h.symm
        simp [hmGet, hmSet, h1, hkk]
      · simp [hmGet, hmSet, h1, h2, ih]

lemma ScanInv.mono {hash1 : String → String} {hhAlg : String → String → String}
    {fs : String → Option String} {seen seen' : List String} {st : ScanState}
    (h : ScanInv hash1 hhAlg fs seen st) (hsub : seen ⊆ seen') :
    ScanInv hash1 hhAlg fs seen' st := by
  constructor
  · intro k q hq
    obtain ⟨hmem, hrest⟩ := h.h1_mem k q hq
    exact ⟨hsub hmem, hrest⟩
  · intro k g hg
    obtain ⟨hnd, hmem⟩ := h.h2_mem k g hg
    exact ⟨hnd, fun p hp => ⟨hsub (hmem p hp).1, (hmem p hp).2⟩⟩
  · intro p hp
    obtain ⟨hps, cp, hcp, q, cq, hqs, hqp, hcq, hh⟩ := h.hh_mem p hp
    exact ⟨hsub hps, cp, hcp, q, cq, hsub hqs, hqp, hcq, hh⟩

lemma scanInv_init (hash1 : String → String) (hhAlg : String → String → String)
    (fs : String → Option String) : ScanInv hash1 hhAlg fs [] initState := by
  constructor
  · intro k q hq; simp [initState, hmGet] at hq
  · intro k g hg; simp [initState, hmGet] at hg
  · intro p hp; simp [initState] at hp

lemma processFile_dir (hash1 : String → String) (hhAlg : String → String → String)
    (fs : String → Option String) (e : WalkEntry) (st : ScanState)
    (hw : e.walkErr = false) (hd : e.isDir = true) :
    processFile hash1 hhAlg fs e st = .ok { st with fileCount := st.fileCount + 1 } := by
  simp [processFile, hw, hd]

lemma processFile_unreadable (hash1 : String → String) (hhAlg : String → String → String)
    (fs : String → Option String) (e : WalkEntry) (st : ScanState)
    (hw : e.walkErr = false) (hd : e.isDir = false) (hfs : fs e.path = none) :
    processFile hash1 hhAlg fs e st =
      .ok { st with fileCount := st.fileCount + 1, reports := st.reports ++ [e.path] } := by
  simp [processFile, hw, hd, hfs]

lemma processFile_walkErr (hash1 : String → String) (hhAlg : String → String → String)
    (fs : String → Option String) (e : WalkEntry) (st : ScanState)
    (hw : e.walkErr = true) :
    processFile hash1 hhAlg fs e st = .error () := by
  simp [processFile, hw]

lemma processFile_inv (hash1 : String → String) (hhAlg : String → String → String)
    (fs : String → Option String) (e : WalkEntry) (st st' : ScanState) (seen : List String)
    (hd : e.isDir = false)
    (hinv : ScanInv hash1 hhAlg fs seen st)
    (hnew : e.path ∉ seen)
    (hok : processFile hash1 hhAlg fs e st = .ok st') :
    ScanInv hash1 hhAlg fs (seen ++ [e.path]) st' := by
  have hsub : seen ⊆ seen ++ [e.path] := List.subset_append_left _ _
  have hpathmem : e.path ∈ seen ++ [e.path] := by simp
  cases hwe : e.walkErr with
  | true => rw [processFile_walkErr hash1 hhAlg fs e st hwe] at hok; exact absurd hok (by simp)
  | false =>
  cases hfs : fs e.path with
  | none =>
    rw [processFile_unreadable hash1 hhAlg fs e st hwe hd hfs] at hok
    obtain rfl : _ = st' := Except.ok.inj hok
    exact ⟨(hinv.mono hsub).h1_mem, (hinv.mono hsub).h2_mem, (hinv.mono hsub).hh_mem⟩
  | some content =>
  cases hget : hmGet st.h1HM (hash1 content) with
  | none =>
    -- primary miss: record the first-seen path
    have hok' : Except.ok (ε := Unit)
        { st with fileCount := st.fileCount + 1,
                  h1HM := hmSet st.h1HM (hash1 content) e.path } = .ok st' := by
      rw [← hok]; simp [processFile, hwe, hd, hfs, hget]
    obtain rfl : _ = st' := Except.ok.inj hok'
    refine ⟨?_, (hinv.mono hsub).h2_mem, (hinv.mono hsub).hh_mem⟩
    intro k q hq
    simp only [hmGet_hmSet] at hq
    by_cases hk : hash1 content = k
    · rw [if_pos hk] at hq
      obtain rfl : e.path = q := Option.some.inj hq
      exact ⟨hpathmem, content, hfs, hk⟩
    · rw [if_neg hk] at hq
      exact (hinv.mono hsub).h1_mem k q hq
  | some prevPath =>
    obtain ⟨hprevseen, cq, hcq, hcqk⟩ := hinv.h1_mem (hash1 content) prevPath hget
    cases hfsp : fs prevPath with
    | none =>
      have hok' : Except.ok (ε := Unit)
          { st with fileCount := st.fileCount + 1,
                    reports := st.reports ++ [e.path] } = .ok st' := by
        rw [← hok]; simp [processFile, hwe, hd, hfs, hget, hfsp]
      obtain rfl : _ = st' := Except.ok.inj hok'
      exact ⟨(hinv.mono hsub).h1_mem, (hinv.mono hsub).h2_mem, (hinv.mono hsub).hh_mem⟩
    | some cprev =>
      have hcpe : cprev = cq := by rw [hfsp] at hcq; exact Option.some.inj hcq
      have hprev1 : hash1 cprev = hash1 content := by rw [hcpe, hcqk]
      have hne : e.path ≠ prevPath := fun h => hnew (h ▸ hprevseen)
      -- intermediate seeded map
      set k1 := hash1 content ++ computeHighwayHash hhAlg cprev with hk1
      set k2 := hash1 content ++ computeHighwayHash hhAlg content with hk2
      have hseed : ∀ k g, hmGet (addDupesToHashMap k1 prevPath st.h2HM) k = some g →
          g.Nodup ∧ ∀ p ∈ g, p ∈ seen ∧ ∃ cp, fs p = some cp ∧ compositeOf hash1 hhAlg cp = k := by
        intro k g hg
        simp only [addDupesToHashMap, hmGet_hmSet] at hg
        by_cases hk : k1 = k
        · rw [if_pos hk] at hg
          obtain rfl : [prevPath] = g := Option.some.inj hg
          refine ⟨List.nodup_singleton _, ?_⟩
          intro p hp
          obtain rfl : p = prevPath := by simpa using hp
          exact ⟨hprevseen, cprev, hfsp, by rw [compositeOf, hprev1, hk1] at *; exact hk⟩
        · rw [if_neg hk] at hg
          exact hinv.h2_mem k g hg
      have hseedseen : ∀ k g, hmGet (addDupesToHashMap k1 prevPath st.h2HM) k = some g →
          ∀ p ∈ g, p ∈ seen := fun k g hg p hp => ((hseed k g hg).2 p hp).1
      -- hhCalls of the final state in both sub-branches
      have hhfinal : ∀ p, p ∈ (st.hhCalls ++ [prevPath]) ++ [e.path] →
          p ∈ seen ++ [e.path] ∧ ∃ cp, fs p = some cp ∧
          ∃ q cq', q ∈ seen ++ [e.path] ∧ q ≠ p ∧ fs q = some cq' ∧ hash1 cq' = hash1 cp := by
        intro p hp
        rcases List.mem_append.1 hp with hp | hp
        · rcases List.mem_append.1 hp with hp | hp
          · obtain ⟨hps, cp, hcp, q, cq', hqs, hqp, hcq', hhh⟩ := hinv.hh_mem p hp
            exact ⟨hsub hps, cp, hcp, q, cq', hsub hqs, hqp, hcq', hhh⟩
          · obtain rfl : p = prevPath := by simpa using hp
            exact ⟨hsub hprevseen, cprev, hfsp, e.path, content, hpathmem, hne, hfs,
              hprev1.symm⟩
        · obtain rfl : p = e.path := by simpa using hp
          exact ⟨hpathmem, content, hfs, prevPath, cprev, hsub hprevseen,
            fun h => hne h.symm, hfsp, hprev1⟩
      cases hget2 : hmGet (addDupesToHashMap k1 prevPath st.h2HM) k2 with
      | some dupes =>
        have hok' : Except.ok (ε := Unit)
            { st with fileCount := st.fileCount + 1,
                      hhCalls := (st.hhCalls ++ [prevPath]) ++ [e.path],
                      dupeCount := st.dupeCount + 1,
                      h2HM := hmSet (addDupesToHashMap k1 prevPath st.h2HM) k2
                        (dupes ++ [e.path]) } = .ok st' := by
          rw [← hok]; simp [processFile, hwe, hd, hfs, hget, hfsp, ← hk1, ← hk2, hget2]
        obtain rfl : _ = st' := Except.ok.inj hok'
        obtain ⟨hdnd, hdmem⟩ := hseed k2 dupes hget2
        have hepnotin : e.path ∉ dupes := fun h => hnew ((hdmem e.path h).1)
        refine ⟨(hinv.mono hsub).h1_mem, ?_, hhfinal⟩
        intro k g hg
        simp only [hmGet_hmSet] at hg
        by_cases hk : k2 = k
        · rw [if_pos hk] at hg
          obtain rfl : dupes ++ [e.path] = g := Option.some.inj hg
          constructor
          · rw [List.nodup_append]
            exact ⟨hdnd, List.nodup_singleton _, fun x hx hy => by
              obtain rfl : x = e.path := by simpa using hy
              exact hepnotin hx⟩
          · intro p hp
            rcases List.mem_append.1 hp with hp | hp
            · exact ⟨hsub (hdmem p hp).1, hk ▸ (hdmem p hp).2⟩
            · obtain rfl : p = e.path := by simpa using hp
              exact ⟨hpathmem, content, hfs, by rw [compositeOf]; exact hk⟩
        · rw [if_neg hk] at hg
          obtain ⟨hgnd, hgmem⟩ := hseed k g hg
          exact ⟨hgnd, fun p hp => ⟨hsub (hgmem p hp).1, (hgmem p hp).2⟩⟩
      | none =>
        have hok' : Except.ok (ε := Unit)
            { st with fileCount := st.fileCount + 1,
                      hhCalls := (st.hhCalls ++ [prevPath]) ++ [e.path],
                      h2HM := addDupesToHashMap k2 e.path
                        (addDupesToHashMap k1 prevPath st.h2HM) } = .ok st' := by
          rw [← hok]; simp [processFile, hwe, hd, hfs, hget, hfsp, ← hk1, ← hk2, hget2]
        obtain rfl : _ = st' := Except.ok.inj hok'
        refine ⟨(hinv.mono hsub).h1_mem, ?_, hhfinal⟩
        intro k g hg
        simp only [addDupesToHashMap, hmGet_hmSet] at hg
        by_cases hk : k2 = k
        · rw [if_pos hk] at hg
          obtain rfl : [e.path] = g := Option.some.inj hg
          refine ⟨List.nodup_singleton _, ?_⟩
          intro p hp
          obtain rfl : p = e.path := by simpa using hp
          exact ⟨hpathmem, content, hfs, by rw [compositeOf]; exact hk⟩
        · rw [if_neg hk] at hg
          obtain ⟨hgnd, hgmem⟩ := hseed k g (by simpa [addDupesToHashMap, hmGet_hmSet] using hg)
          exact ⟨hgnd, fun p hp => ⟨hsub (hgmem p hp).1, (hgmem p hp).2⟩⟩

lemma walkFiles_inv (hash1 : String → String) (hhAlg : String → String → String)
    (fs : String → Option String) :
    ∀ (entries : List WalkEntry) (st : ScanState) (seen : List String) (st' : ScanState),
    ScanInv hash1 hhAlg fs seen st →
    (seen ++ entries.map WalkEntry.path).Nodup →
    walkFiles hash1 hhAlg fs entries st = .ok st' →
    ∃ seen', ScanInv hash1 hhAlg fs seen' st' ∧
      seen' ⊆ seen ++ (entries.filter (fun e => e.isDir = false)).map WalkEntry.path := by
  intro entries
  induction entries with
  | nil =>
    intro st seen st' hinv hnd hok
    obtain rfl : st = st' := Except.ok.inj hok
    exact ⟨seen, hinv, by simp⟩
  | cons e rest ih =>
    intro st seen st' hinv hnd hok
    cases hpf : processFile hash1 hhAlg fs e st with
    | error err => rw [walkFiles, hpf] at hok; exact absurd hok (by simp)
    | ok st1 =>
      rw [walkFiles, hpf] at hok
      have hwe : e.walkErr = false := by
        cases hwe : e.walkErr
        · rfl
        · rw [processFile_walkErr hash1 hhAlg fs e st hwe] at hpf
          exact absurd hpf (by simp)
      cases hd : e.isDir with
      | true =>
        have hst1 : st1 = { st with fileCount := st.fileCount + 1 } := by
          rw [processFile_dir hash1 hhAlg fs e st hwe hd] at hpf
          exact (Except.ok.inj hpf).symm
        have hinv1 : ScanInv hash1 hhAlg fs seen st1 := by
          subst hst1
          exact ⟨hinv.h1_mem, hinv.h2_mem, hinv.hh_mem⟩
        have hnd1 : (seen ++ rest.map WalkEntry.path).Nodup := by
          refine List.Nodup.sublist ?_ hnd
          exact (List.sublist_cons_self e.path (rest.map WalkEntry.path)).append_left seen
        obtain ⟨seen', hinv', hsub⟩ := ih st1 seen st' hinv1 hnd1 hok
        refine ⟨seen', hinv', ?_⟩
        simpa [List.filter_cons, hd] using hsub
      | false =>
        have hnew : e.path ∉ seen := by
          rw [List.nodup_append] at hnd
          exact fun hmem => hnd.2.2 hmem (by simp)
        have hinv1 := processFile_inv hash1 hhAlg fs e st st1 seen hd hinv hnew hpf
        have hnd1 : ((seen ++ [e.path]) ++ rest.map WalkEntry.path).Nodup := by
          simpa [List.append_assoc] using hnd
        obtain ⟨seen', hinv', hsub⟩ := ih st1 (seen ++ [e.path]) st' hinv1 hnd1 hok
        refine ⟨seen', hinv', ?_⟩
        intro x hx
        have hx' := hsub hx
        simp only [List.filter_cons, hd, List.map_cons, List.append_assoc,
          List.singleton_append, decide_True, if_pos] at hx' ⊢
        simpa using hx'

lemma runScan_inv (hash1 : String → String) (hhAlg : String → String → String)
    (fs : String → Option String) (entries : List WalkEntry) (st : ScanState)
    (hnd : (entries.map WalkEntry.path).Nodup)
    (hok : runScan hash1 hhAlg fs entries = .ok st) :
    ∃ seen, ScanInv hash1 hhAlg fs seen st ∧
      seen ⊆ (entries.filter (fun e => e.isDir = false)).map WalkEntry.path := by
  obtain ⟨seen, hinv, hsub⟩ := walkFiles_inv hash1 hhAlg fs entries initState [] st
    (scanInv_init hash1 hhAlg fs) (by simpa using hnd) hok
  exact ⟨seen, hinv, by simpa using hsub⟩

lemma jsonStrings_map_str (l : List String) : jsonStrings (l.map Json.str) = some l := by
  induction l with
  | nil => rfl
  | cons a l ih => simp [jsonStrings, jsonToString, ih]

lemma unmarshalDupe_marshalDupe (d : Dupe) : unmarshalDupe (marshalDupe d) = some d := by
  obtain ⟨h, fls⟩ := d
  simp [marshalDupe, unmarshalDupe, jsonStrings_map_str]

lemma unmarshal_marshal (ds : List Dupe) : unmarshalDupes (marshalDupes ds) = some ds := by
  simp only [unmarshalDupes, marshalDupes]
  induction ds with
  | nil => rfl
  | cons d ds ih => simp [dupList, unmarshalDupe_marshalDupe, ih]

lemma wellFormedArgs_cons (a : String) (rest : List String) :
    wellFormedArgs (a :: rest) =
      (if a = "" then false
       else if a.take 1 = "-" then
         if a.drop 1 = "j" ∨ a.drop 1 = "-json" then
           match rest with
           | [] => false
           | _ :: rest2 => wellFormedArgs rest2
         else false
       else wellFormedArgs rest) := by
  rw [wellFormedArgs.eq_def]

lemma posArgs_cons (a : String) (rest : List String) :
    posArgs (a :: rest) =
      (if a.take 1 = "-" then
         if a.drop 1 = "j" ∨ a.drop 1 = "-json" then
           match rest with
           | [] => []
           | _ :: rest2 => posArgs rest2
         else posArgs rest
       else a :: posArgs rest) := by
  rw [posArgs.eq_def]

lemma parseLoop_cons (a : String) (rest : List String) (cfg : Config) :
    parseLoop (a :: rest) cfg =
      (if a = "" then .error .panicked
       else if a.take 1 = "-" then
         if a.drop 1 = "j" ∨ a.drop 1 = "-json" then
           match rest with
           | [] => .error .usage
           | jf :: rest2 =>
             parseLoop rest2 { cfg with json_output := true, json_file := jf }
         else .error .usage
       else parseLoop rest { cfg with dupeDir := a }) := by
  rw [parseLoop.eq_def]

lemma parseLoop_wf : ∀ (n : Nat) (args : List String), args.length ≤ n →
    wellFormedArgs args = true → ∀ (cfg : Config),
    ∃ cfg', parseLoop args cfg = .ok cfg' ∧
      cfg'.dupeDir = (posArgs args).getLastD cfg.dupeDir ∧
      (posArgs args = [] ∨ (cfg'.dupeDir ∈ posArgs args ∧ cfg'.dupeDir ≠ "")) := by
  intro n
  induction n with
  | zero =>
    intro args hlen hwf cfg
    have : args = [] := List.eq_nil_of_length_eq_zero (Nat.le_zero.1 hlen)
    subst this
    exact ⟨cfg, rfl, rfl, Or.inl rfl⟩
  | succ n ih =>
    intro args hlen hwf cfg
    cases args with
    | nil => exact ⟨cfg, rfl, rfl, Or.inl rfl⟩
    | cons a rest =>
      rw [wellFormedArgs_cons] at hwf
      have ha : ¬ a = "" := by
        intro h
        rw [if_pos h] at hwf
        exact absurd hwf (by simp)
      rw [if_neg ha] at hwf
      by_cases hflag : a.take 1 = "-"
      · rw [if_pos hflag] at hwf
        have hj : a.drop 1 = "j" ∨ a.drop 1 = "-json" := by
          by_contra hnj
          rw [if_neg hnj] at hwf
          exact absurd hwf (by simp)
        rw [if_pos hj] at hwf
        cases rest with
        | nil => exact absurd hwf (by simp)
        | cons jf rest2 =>
          have hlen2 : rest2.length ≤ n := by
            simp only [List.length_cons] at hlen
            omega
          obtain ⟨cfg', hpl, hdir, hmem⟩ :=
            ih rest2 hlen2 hwf { cfg with json_output := true, json_file := jf }
          refine ⟨cfg', ?_, ?_, ?_⟩
          · rw [parseLoop_cons, if_neg ha, if_pos hflag, if_pos hj]
            exact hpl
          · rw [posArgs_cons, if_pos hflag, if_pos hj]
            exact hdir
          · rw [posArgs_cons, if_pos hflag, if_pos hj]
            exact hmem
      · rw [if_neg hflag] at hwf
        have hlenr : rest.length ≤ n := by
          simp only [List.length_cons] at hlen
          omega
        obtain ⟨cfg', hpl, hdir, hmem⟩ := ih rest hlenr hwf { cfg with dupeDir := a }
        refine ⟨cfg', ?_, ?_, ?_⟩
        · rw [parseLoop_cons, if_neg ha, if_neg hflag]
          exact hpl
        · rw [posArgs_cons, if_neg hflag, List.getLastD_cons]
          exact hdir
        · rw [posArgs_cons, if_neg hflag]
          rcases hmem with hnil | ⟨hm, hne⟩
          · refine Or.inr ⟨?_, ?_⟩
            · rw [hdir, hnil]
              simp
            · rw [hdir, hnil]
              simpa using ha
          · exact Or.inr ⟨List.mem_cons_of_mem a hm, hne⟩

/-! ## Claim C1 -/

/-- Claim C1: the spec demands that N byte-identical files end up in exactly
one shared duplicate group of size N.  The code violates this: with three
files a, b, c all holding the same bytes, `addDupesToHashMap` (invoked
unconditionally on every primary hit, dupes.go line 181) resets the existing
group to the singleton `[a]` before appending the current file, so the final
group under the shared composite key is `[a, c]` — file b is in no group at
all and the group has size 2, not 3.  This theorem evaluates the embedded
code at that failing input. -/
theorem C1_lost_duplicate :
    scanGroups idHash idKeyed fsSameX entsABC = some [("xx", ["a", "c"])] ∧
    ("b" : String) ∉ (["a", "c"] : List String) := ⟨rfl, by decide⟩

/-! ## Claim C2 -/

/-- Claim C2 counterexample: with four byte-identical files a, b, c, d the
secondary fingerprinter runs on file a's bytes three times (once per later
collision, dupes.go line 176: the previously seen file is re-hashed on every
primary hit), refuting "at most twice per file". -/
theorem C2_counterexample :
    ¬ ((scanHHCalls idHash idKeyed fsSameX entsABCD).count "a" ≤ 2) := by decide

/-- Claim C2 as amended: the secondary fingerprinter is never invoked for a
file whose primary digest is unique among the observed regular files, and
every invocation is on a readable file that shares its primary digest with a
different readable observed file; however the first-seen file of a primary
digest is re-hashed once per colliding arrival, so the per-file bound is the
number of collisions, not two. -/
theorem C2_amended_unique_primary_never_rehashed (hash1 : String → String)
    (hhAlg : String → String → String) (fs : String → Option String)
    (entries : List WalkEntry) (st : ScanState) (p : String)
    (hnd : (entries.map WalkEntry.path).Nodup)
    (hok : runScan hash1 hhAlg fs entries = .ok st)
    (huniq : ∀ e ∈ entries, e.isDir = false → e.path ≠ p →
      primaryDigest hash1 fs e.path ≠ primaryDigest hash1 fs p ∨
      primaryDigest hash1 fs p = none) :
    st.hhCalls.count p = 0 ∧
    ∀ q ∈ st.hhCalls, ∃ cq r cr, fs q = some cq ∧ r ≠ q ∧ fs r = some cr ∧
      hash1 cr = hash1 cq := by
  obtain ⟨seen, hinv, hsub⟩ := runScan_inv hash1 hhAlg fs entries st hnd hok
  constructor
  · rw [List.count_eq_zero]
    intro hp
    obtain ⟨hps, cp, hcp, q, cq', hqs, hqp, hcq', hhh⟩ := hinv.hh_mem p hp
    obtain ⟨e, hef, hepath⟩ := List.mem_map.1 (hsub hqs)
    obtain ⟨hee, hedir⟩ := List.mem_filter.1 hef
    have hedir' : e.isDir = false := by simpa using hedir
    have hnep : e.path ≠ p := by rw [hepath]; exact hqp
    rcases huniq e hee hedir' hnep with hne | hnone
    · apply hne
      rw [hepath]
      simp [primaryDigest, hcq', hcp, hhh]
    · rw [primaryDigest, hcp] at hnone
      exact absurd hnone (by simp)
  · intro q hq
    obtain ⟨-, cq, hcq, r, cr, -, hrq, hcr, hh⟩ := hinv.hh_mem q hq
    exact ⟨cq, r, cr, hcq, hrq, hcr, hh⟩

/-- Witness for the amended claim C2: a two-file scan with distinct contents
and distinct primary digests never invokes the secondary fingerprinter on
file a. -/
theorem C2_amended_witness :
    (entsAB.map WalkEntry.path).Nodup ∧
    runScan idHash idKeyed fsXY entsAB = .ok stAB_XY ∧
    (∀ e ∈ entsAB, e.isDir = false → e.path ≠ "a" →
      primaryDigest idHash fsXY e.path ≠ primaryDigest idHash fsXY "a" ∨
      primaryDigest idHash fsXY "a" = none) ∧
    stAB_XY.hhCalls.count "a" = 0 :=
  ⟨by decide, rfl, by decide,
    (C2_amended_unique_primary_never_rehashed idHash idKeyed fsXY entsAB stAB_XY "a"
      (by decide) rfl (by decide)).1⟩

/-! ## Claim C3 -/

/-- Claim C3 counterexample: two files with the same primary digest but
different contents (hence different secondary digests).  The bare primary hit
creates the composite key "Px" holding the singleton group `["a"]` (dupes.go
line 181), although exactly one of the two observed contents has composite
digest "Px" — refuting "a composite key is only ever created after at least
two files share both digests". -/
theorem C3_counterexample :
    scanGroups constP idKeyed fsXY entsAB = some [("Px", ["a"]), ("Py", ["b"])] ∧
    (List.filter (fun c => compositeOf constP idKeyed c = "Px") ["x", "y"]).length = 1 := by
  decide

/-- Claim C3 as amended: a composite-key entry may exist with a single
member after a bare primary hit (the seeded earlier file), but any group
that reaches size two or more — the only groups reported or counted —
contains two distinct observed readable files whose composite digests both
equal the group's key. -/
theorem C3_amended_reported_group_shares_digests (hash1 : String → String)
    (hhAlg : String → String → String) (fs : String → Option String)
    (entries : List WalkEntry) (st : ScanState)
    (hnd : (entries.map WalkEntry.path).Nodup)
    (hok : runScan hash1 hhAlg fs entries = .ok st)
    (k : String) (g : List String) (hg : hmGet st.h2HM k = some g)
    (hlen : 2 ≤ g.length) :
    ∃ p q, p ≠ q ∧ p ∈ g ∧ q ∈ g ∧
      (∃ cp, fs p = some cp ∧ compositeOf hash1 hhAlg cp = k) ∧
      (∃ cq, fs q = some cq ∧ compositeOf hash1 hhAlg cq = k) := by
  obtain ⟨seen, hinv, -⟩ := runScan_inv hash1 hhAlg fs entries st hnd hok
  obtain ⟨hndg, hmem⟩ := hinv.h2_mem k g hg
  cases g with
  | nil => simp at hlen
  | cons x t =>
    cases t with
    | nil => simp at hlen
    | cons y t2 =>
      have hxy : x ≠ y := by
        have hx := (List.nodup_cons.1 hndg).1
        intro h
        exact hx (h ▸ List.mem_cons_self y t2)
      refine ⟨x, y, hxy, List.mem_cons_self x _,
        List.mem_cons_of_mem x (List.mem_cons_self y t2),
        (hmem x (List.mem_cons_self x _)).2,
        (hmem y (List.mem_cons_of_mem x (List.mem_cons_self y t2))).2⟩

/-- Witness for the amended claim C3: the confirmed pair of identical files
a, b forms a two-member group whose members both carry the key's composite
digest. -/
theorem C3_amended_witness :
    (entsAB.map WalkEntry.path).Nodup ∧
    runScan idHash idKeyed fsSameX entsAB = .ok stAB_X ∧
    hmGet stAB_X.h2HM "xx" = some ["a", "b"] ∧
    2 ≤ (["a", "b"] : List String).length ∧
    (∃ p q, p ≠ q ∧ p ∈ (["a", "b"] : List String) ∧ q ∈ (["a", "b"] : List String) ∧
      (∃ cp, fsSameX p = some cp ∧ compositeOf idHash idKeyed cp = "xx") ∧
      (∃ cq, fsSameX q = some cq ∧ compositeOf idHash idKeyed cq = "xx")) :=
  ⟨by decide, rfl, by decide, by decide,
    C3_amended_reported_group_shares_digests idHash idKeyed fsSameX entsAB stAB_X
      (by decide) rfl "xx" ["a", "b"] (by decide) (by decide)⟩

/-! ## Claim C4 -/

/-- Claim C4: a read error local to a single file never aborts the
traversal: when opening the current file fails (`fs e.path = none`),
`processFile` returns nil after printing the path, both indices `h1HM` and
`h2HM` are untouched (the returned state changes only the file counter and
the report log), and the walk continues with the remaining entries; an error
affecting the whole traversal (a non-nil error handed to the callback by
`filepath.Walk`) aborts the walk and `main` exits with code 3. -/
theorem C4_local_error_skips (hash1 : String → String) (hhAlg : String → String → String)
    (fs : String → Option String) :
    (∀ (e : WalkEntry) (rest : List WalkEntry) (st : ScanState),
      e.isDir = false → e.walkErr = false → fs e.path = none →
      processFile hash1 hhAlg fs e st =
        .ok { st with fileCount := st.fileCount + 1, reports := st.reports ++ [e.path] } ∧
      walkFiles hash1 hhAlg fs (e :: rest) st =
        walkFiles hash1 hhAlg fs rest
          { st with fileCount := st.fileCount + 1, reports := st.reports ++ [e.path] }) ∧
    (∀ (entries : List WalkEntry) (json_output writeOk : Bool),
      runScan hash1 hhAlg fs entries = .error () →
      (mainRun hash1 hhAlg fs entries json_output writeOk).exitCode = 3) := by
  constructor
  · intro e rest st hd hw hfs
    have hpf := processFile_unreadable hash1 hhAlg fs e st hw hd hfs
    refine ⟨hpf, ?_⟩
    rw [walkFiles, hpf]
  · intro entries json_output writeOk herr
    simp [mainRun, herr]

/-- Witness for claim C4: path c is unreadable under `fsXY`; processing it
reports it and leaves the indices empty, and the walk proceeds to the next
entry; a traversal-level error makes the run exit with code 3. -/
theorem C4_witness :
    processFile idHash idKeyed fsXY (entFile "c") initState =
      .ok { initState with fileCount := 1, reports := ["c"] } ∧
    walkFiles idHash idKeyed fsXY [entFile "c", entFile "a"] initState =
      walkFiles idHash idKeyed fsXY [entFile "a"]
        { initState with fileCount := 1, reports := ["c"] } ∧
    runScan idHash idKeyed fsXY [{ path := "a", isDir := false, walkErr := true }] =
      .error () ∧
    (mainRun idHash idKeyed fsXY [{ path := "a", isDir := false, walkErr := true }]
      true true).exitCode = 3 :=
  ⟨((C4_local_error_skips idHash idKeyed fsXY).1 (entFile "c") [entFile "a"] initState
      rfl rfl rfl).1,
   ((C4_local_error_skips idHash idKeyed fsXY).1 (entFile "c") [entFile "a"] initState
      rfl rfl rfl).2,
   rfl,
   (C4_local_error_skips idHash idKeyed fsXY).2
     [{ path := "a", isDir := false, walkErr := true }] true true rfl⟩

/-! ## Claim C5 -/

/-- Claim C5: the spec demands a non-zero exit status when writing the JSON
report fails.  The code violates this: `main` discards the error returned by
`printDupes` (`_ = printDupes(...)`, dupes.go line 259) and falls off the end
of `main`, so the process exits 0.  This theorem evaluates the embedded
code on a scan with one confirmed duplicate pair, JSON output requested and
the write failing: the error message is printed and the in-memory results
still reach the console, but the exit code is 0. -/
theorem C5_output_error_exits_zero :
    mainRun idHash idKeyed fsSameX entsAB true false =
      { exitCode := 0, console := [("7878", ["a", "b"])], jsonWritten := none,
        outputErrorReported := true } := by decide

/-! ## Claim C6 -/

/-- Claim C6 counterexample: the console renders each group key with the
`%x` verb, hex-encoding the bytes of a key that is itself already a
hex-digit string, while the JSON `hash` field holds the key verbatim.  For
the confirmed pair under key "xx" the console prints "7878" but the JSON
round-trips to "xx" — the printed hash strings and the parsed-back hash
strings differ. -/
theorem C6_counterexample :
    scanGroups idHash idKeyed fsSameX entsAB = some [("xx", ["a", "b"])] ∧
    consoleRender [("xx", ["a", "b"])] = [("7878", ["a", "b"])] ∧
    unmarshalDupes (marshalDupes (jsonDupes [("xx", ["a", "b"])])) =
      some [{ hash := "xx", files := ["a", "b"] }] ∧
    (consoleRender [("xx", ["a", "b"])]).map Prod.fst ≠
      (jsonDupes [("xx", ["a", "b"])]).map Dupe.hash := by decide

/-- Claim C6 as amended: parsing the JSON report back reproduces exactly the
slice that was marshalled — the same groups with the same path lists in the
same preserved order, keyed by the composite key — and the console report
lists exactly the same groups in the same order with the same path lists,
with each console hash line showing the hex-encoding of the corresponding
JSON hash string rather than the string itself. -/
theorem C6_amended_roundtrip (hm : List (String × List String)) :
    unmarshalDupes (marshalDupes (jsonDupes hm)) = some (jsonDupes hm) ∧
    consoleRender hm = (jsonDupes hm).map (fun d => (hexEncode d.hash, d.files)) := by
  refine ⟨unmarshal_marshal _, ?_⟩
  simp [consoleRender, jsonDupes, List.map_map, Function.comp]

/-! ## Claim C7 -/

/-- Claim C7: scanning the same traversal twice over unmodified contents
yields identical results — identical group membership and identical composite
keys — because both digest functions are pure functions of the content bytes
and the secondary digest is keyed with the fixed constant `HH_KEY` baked into
`computeHighwayHash`. -/
theorem C7_rescan_deterministic (hash1 : String → String) (hhAlg : String → String → String)
    (fs1 fs2 : String → Option String) (entries : List WalkEntry)
    (hsame : ∀ p, fs1 p = fs2 p) :
    runScan hash1 hhAlg fs1 entries = runScan hash1 hhAlg fs2 entries := by
  have h : fs1 = fs2 := funext hsame
  rw [h]

/-- Witness for claim C7: two file systems assigning the same bytes to every
path produce identical scans. -/
theorem C7_witness :
    runScan idHash idKeyed fsSameX entsAB = runScan idHash idKeyed fsSameX2 entsAB :=
  C7_rescan_deterministic idHash idKeyed fsSameX fsSameX2 entsAB (fun _ => rfl)

/-! ## Claim C8 -/

/-- Claim C8: when JSON output is requested but the scan ends with a zero
duplicate counter, `main` never calls `printDupes` (dupes.go lines 257-262),
so no JSON file is written at all — not even an empty array. -/
theorem C8_no_dupes_no_json_file (hash1 : String → String) (hhAlg : String → String → String)
    (fs : String → Option String) (entries : List WalkEntry) (writeOk : Bool) (st : ScanState)
    (hok : runScan hash1 hhAlg fs entries = .ok st)
    (hzero : st.dupeCount = 0) :
    (mainRun hash1 hhAlg fs entries true writeOk).jsonWritten = none := by
  simp [mainRun, hok, hzero]

/-- Witness for claim C8: a one-file scan finds no duplicates and writes no
JSON even though the flag is set and the write would succeed. -/
theorem C8_witness :
    runScan idHash idKeyed fsXY [entFile "a"] = .ok stA_XY ∧
    stA_XY.dupeCount = 0 ∧
    (mainRun idHash idKeyed fsXY [entFile "a"] true true).jsonWritten = none :=
  ⟨rfl, rfl, C8_no_dupes_no_json_file idHash idKeyed fsXY [entFile "a"] true stA_XY rfl rfl⟩

/-! ## Claim C9 -/

/-- Claim C9 counterexample: with the two positional arguments "a" and ""
the argument loop indexes `args[i][0]` on the empty string and panics
(abnormal termination), so the invocation is rejected rather than scanning
the last positional argument. -/
theorem C9_counterexample :
    posArgs ["a", ""] = ["a", ""] ∧ parseArgs ["a", ""] = .error .panicked :=
  ⟨by decide, rfl⟩

/-- Claim C9 as amended: provided every argument is a non-empty string and
every flag is `-j`/`--json` followed by a value, an invocation with two or
more positional arguments is not rejected — parsing succeeds and the last
positional argument is used as the directory root, all earlier positional
arguments being silently ignored. -/
theorem C9_last_positional_wins (args : List String)
    (hwf : wellFormedArgs args = true)
    (hpos : 2 ≤ (posArgs args).length) :
    ∃ cfg, parseArgs args = .ok cfg ∧ cfg.dupeDir = (posArgs args).getLastD "" := by
  obtain ⟨cfg', hpl, hdir, hmem⟩ := parseLoop_wf args.length args le_rfl hwf
    { json_output := false, json_file := "", dupeDir := "" }
  have hne : posArgs args ≠ [] := by
    intro h
    rw [h] at hpos
    simp at hpos
  rcases hmem with h | ⟨hm, hdd⟩
  · exact absurd h hne
  have hlen1 : ¬ args.length < 1 := by
    cases args with
    | nil => exact absurd rfl hne
    | cons a rest => simp
  refine ⟨cfg', ?_, hdir⟩
  simp only [parseArgs, if_neg hlen1]
  rw [hpl]
  simp [hdd]

/-- Witness for the amended claim C9: with the two positional arguments
"x" and "y" parsing succeeds and the directory root is "y". -/
theorem C9_witness :
    wellFormedArgs ["x", "y"] = true ∧
    2 ≤ (posArgs ["x", "y"]).length ∧
    (∃ cfg, parseArgs ["x", "y"] = .ok cfg ∧
      cfg.dupeDir = (posArgs ["x", "y"]).getLastD "") :=
  ⟨by decide, by decide, C9_last_positional_wins ["x", "y"] (by decide) (by decide)⟩

/-! ## Claim C10 -/

/-- Claim C10: in the final state of a completed scan over distinct paths,
with the primary digest of fixed width (as xxhash64's sixteen hex characters
are), any two members of one duplicate group are readable files whose
primary digest is the prefix of the group's composite key, and hence all
members of one group share the same primary digest. -/
theorem C10_group_members_share_primary (hash1 : String → String)
    (hhAlg : String → String → String) (fs : String → Option String)
    (entries : List WalkEntry) (st : ScanState) (L : Nat)
    (hnd : (entries.map WalkEntry.path).Nodup)
    (hok : runScan hash1 hhAlg fs entries = .ok st)
    (hL : ∀ c, (hash1 c).length = L)
    (k : String) (g : List String) (hg : hmGet st.h2HM k = some g)
    (p q : String) (hp : p ∈ g) (hq : q ∈ g) :
    ∃ cp cq, fs p = some cp ∧ fs q = some cq ∧
      k = hash1 cp ++ computeHighwayHash hhAlg cp ∧
      k = hash1 cq ++ computeHighwayHash hhAlg cq ∧
      hash1 cp = hash1 cq := by
  obtain ⟨seen, hinv, -⟩ := runScan_inv hash1 hhAlg fs entries st hnd hok
  obtain ⟨-, hmem⟩ := hinv.h2_mem k g hg
  obtain ⟨-, cp, hcp, hkp⟩ := hmem p hp
  obtain ⟨-, cq, hcq, hkq⟩ := hmem q hq
  have hcomp : hash1 cp ++ computeHighwayHash hhAlg cp =
      hash1 cq ++ computeHighwayHash hhAlg cq := by
    have h := hkp.trans hkq.symm
    simpa [compositeOf] using h
  have hdata : (hash1 cp).data ++ (computeHighwayHash hhAlg cp).data =
      (hash1 cq).data ++ (computeHighwayHash hhAlg cq).data := by
    have h := congrArg String.data hcomp
    simpa [String.data_append] using h
  have hlen : (hash1 cp).data.length = (hash1 cq).data.length := by
    have h1 : (hash1 cp).data.length = L := hL cp
    have h2 : (hash1 cq).data.length = L := hL cq
    rw [h1, h2]
  have hpq : hash1 cp = hash1 cq := String.ext (List.append_inj_left hdata hlen)
  rw [compositeOf] at hkp hkq
  exact ⟨cp, cq, hcp, hcq, hkp.symm, hkq.symm, hpq⟩

/-- Witness for claim C10: the confirmed pair under key "xx" has both
members' primary digests (of fixed width one under `oneHash`) equal and
prefixing the key. -/
theorem C10_witness :
    (entsAB.map WalkEntry.path).Nodup ∧
    runScan oneHash idKeyed fsSameX entsAB = .ok stAB_X ∧
    hmGet stAB_X.h2HM "xx" = some ["a", "b"] ∧
    (∃ cp cq, fsSameX "a" = some cp ∧ fsSameX "b" = some cq ∧
      "xx" = oneHash cp ++ computeHighwayHash idKeyed cp ∧
      "xx" = oneHash cq ++ computeHighwayHash idKeyed cq ∧
      oneHash cp = oneHash cq) :=
  ⟨by decide, rfl, by decide,
    C10_group_members_share_primary oneHash idKeyed fsSameX entsAB stAB_X 1
      (by decide) rfl (fun c => rfl) "xx" ["a", "b"] rfl "a" "b" (by decide) (by decide)⟩
